import Mathlib

/-!
Verification of the terminal-styled chat front-end: the stream
coordinator (typewriter loop), the command router, command history,
tab completion and the virtual filesystem, embedded as pure functions
over `List Char` strings and explicit state records.
-/

namespace GT

/- ===================================================================
   Stream Coordinator
   (App typewriter interval: streamingBuffer / isNetworkStreaming /
    the visible streaming message text)
   =================================================================== -/

/-- Coordinator state: `pending` is `streamingBuffer.current`, `revealed`
is the text committed to the visible streaming message so far, and
`sourceActive` is `isNetworkStreaming.current`. -/
structure StreamState where
  pending : List Char
  revealed : List Char
  sourceActive : Bool
deriving DecidableEq, Repr

/-- `const charsToTake = bufferLen > 150 ? 3 : bufferLen > 50 ? 2 : 1`. -/
def charsToTake (n : Nat) : Nat :=
  if n > 150 then 3 else if n > 50 then 2 else 1

/-- Outcome of one 20ms interval callback. -/
inductive TickResult where
  | revealedDelta (chunk : List Char)
  | idle
  | terminal
deriving DecidableEq, Repr

/-- One 20ms interval callback: if the buffer is non-empty, slice off
`charsToTake` characters and append them to the visible message;
otherwise, if the network source has finished, the stream is terminal
(the interval is cleared); otherwise nothing happens. -/
def tick (s : StreamState) : TickResult × StreamState :=
  if s.pending.length > 0 then
    let n := charsToTake s.pending.length
    (.revealedDelta (s.pending.take n),
      { pending := s.pending.drop n
        revealed := s.revealed ++ s.pending.take n
        sourceActive := s.sourceActive })
  else if s.sourceActive = false then
    (.terminal, s)
  else
    (.idle, s)

/-- The state after one tick. -/
def tickState (s : StreamState) : StreamState := (tick s).2

/-- Iterate `tick` `k` times. -/
def tickIter : Nat → StreamState → StreamState
  | 0, s => s
  | k + 1, s => tickIter k (tickState s)

/-- `streamingBuffer.current += chunkText` (producer side). -/
def appendChunk (s : StreamState) (c : List Char) : StreamState :=
  { s with pending := s.pending ++ c }

/-- `isNetworkStreaming.current = false` (the `finally` block). -/
def closeSource (s : StreamState) : StreamState :=
  { s with sourceActive := false }

/-- Fresh coordinator at the start of an AI message. -/
def initStream : StreamState :=
  { pending := [], revealed := [], sourceActive := true }

/-- Number of ticks needed to drain a backlog of `n` characters. -/
def drainCount : Nat → Nat
  | 0 => 0
  | n + 1 => 1 + drainCount (n + 1 - charsToTake (n + 1))
decreasing_by
  have h : 1 ≤ charsToTake (n + 1) := by
    unfold charsToTake; split
    · omega
    · split <;> omega
  omega

/-- Events a coordinator instance can experience. -/
inductive Ev where
  | append (chunk : List Char)
  | tick
deriving DecidableEq, Repr

/-- Apply one event to the coordinator state. -/
def evStep (s : StreamState) : Ev → StreamState
  | .append c => appendChunk s c
  | .tick => tickState s

/-- Run a trace of events from the fresh coordinator. -/
def runTrace (evs : List Ev) : StreamState :=
  evs.foldl evStep initStream

/-- The chunks appended during a trace, in arrival order. -/
def chunksOf (evs : List Ev) : List (List Char) :=
  evs.filterMap fun e => match e with
    | .append c => some c
    | .tick => none

/-- The catch block: `streamingBuffer.current +=
"\n[ERROR: CONNECTION FAILED - " + message + "]"`. -/
def errFragment (msg : List Char) : List Char :=
  ("\n[ERROR: CONNECTION FAILED - ").toList ++ msg ++ ("]").toList

/-- The whole try/catch/finally of the streaming call: the chunks that
arrived before a failure are already in the buffer, the optional error
is converted to an appended error fragment, and `finally` closes the
source.  Totality of this function embeds the fact that no exception
propagates out of `handleSendMessage`. -/
def runStream (s : StreamState) (chunks : List (List Char))
    (err : Option (List Char)) : StreamState :=
  { s with
    pending := s.pending ++ chunks.flatten ++
      (match err with | none => [] | some m => errFragment m)
    sourceActive := false }

/- ===================================================================
   String utilities (JS trim / toLowerCase / split)
   =================================================================== -/

/-- JS `toLowerCase` on the ASCII range, character by character. -/
def lowerStr (cs : List Char) : List Char := cs.map Char.toLower

/-- JS `trim`: strip leading and trailing whitespace. -/
def trimStr (cs : List Char) : List Char :=
  ((cs.dropWhile Char.isWhitespace).reverse.dropWhile Char.isWhitespace).reverse

/-- Split on a separator, dropping empty fields (multiple separators
collapse); `acc` holds the characters of the current field, reversed. -/
def splitNE (sep : Char) : List Char → List Char → List (List Char)
  | [], acc => if acc = [] then [] else [acc.reverse]
  | c :: cs, acc =>
    if c = sep then
      if acc = [] then splitNE sep cs [] else acc.reverse :: splitNE sep cs []
    else splitNE sep cs (c :: acc)

/-- Whitespace tokenization of a command line (multiple spaces collapse). -/
def tokenize (cs : List Char) : List (List Char) := splitNE ' ' cs []

/-- Path-segment split of a slash-delimited path (no empty segments). -/
def splitSlash (cs : List Char) : List (List Char) := splitNE '/' cs []

/-- JS `split(' ')`: split on every single space, keeping empty fields. -/
def splitAllOnSpace : List Char → List (List Char)
  | [] => [[]]
  | c :: cs =>
    if c = ' ' then [] :: splitAllOnSpace cs
    else
      match splitAllOnSpace cs with
      | [] => [[c]]
      | w :: ws => (c :: w) :: ws

/- ===================================================================
   Virtual Filesystem
   Modelled from the spec: `utils/fileSystem.ts`
   (`executeFileSystemCommand`, `getFileSystemCompletions`,
   `resolvePath` and the tree itself) is not among the source files;
   only its callers are.  The definitions below follow the spec's
   contract for the Virtual Filesystem (4.1), its edge-case policy and
   its error taxonomy.
   =================================================================== -/

/-- A node of the in-memory tree: a file with text content, or a
directory with an ordered list of children. -/
inductive FSNode where
  | file (name : List Char) (content : List Char)
  | dir (name : List Char) (children : List FSNode)

def FSNode.name : FSNode → List Char
  | .file n _ => n
  | .dir n _ => n

def FSNode.isDir : FSNode → Bool
  | .file _ _ => false
  | .dir _ _ => true

/-- An absolute path in normalized form: the list of segment names from
the root (the root itself is `[]`). -/
abbrev Path := List (List Char)

/-- The child of a node with a given name (`none` for files). -/
def childOf : FSNode → List Char → Option FSNode
  | .file _ _, _ => none
  | .dir _ cs, n => cs.find? fun c => c.name = n

/-- Walk named children from a node along a path. -/
def nodeAt : FSNode → Path → Option FSNode
  | n, [] => some n
  | n, seg :: rest =>
    match childOf n seg with
    | none => none
    | some c => nodeAt c rest

/-- Modelled from the spec: the Virtual Filesystem error taxonomy. -/
inductive FsErr where
  | notFound
  | notADirectory
  | isADirectory
deriving DecidableEq, Repr

/-- Modelled from the spec: a filesystem error rendered as a single
line of human-readable text describing the failed path and reason. -/
def renderErr (e : FsErr) (arg : List Char) : List Char :=
  arg ++ (match e with
    | .notFound => (": No such file or directory").toList
    | .notADirectory => (": Not a directory").toList
    | .isADirectory => (": Is a directory").toList)

/-- Modelled from the spec: resolve a list of path segments against the
tree, supporting `.` and `..`; `..` at the root pops nothing (stays at
root); a missing child fails with `NotFound`; descending into a file
fails with `NotADirectory` (a file is allowed only as the final
segment). -/
def resolveSegs (root : FSNode) : Path → List (List Char) → Except FsErr Path
  | p, [] => .ok p
  | p, seg :: rest =>
    if seg = ('.').toString.toList then resolveSegs root p rest
    else if seg = ("..").toList then resolveSegs root p.dropLast rest
    else
      match nodeAt root (p ++ [seg]) with
      | none => .error .notFound
      | some n =>
        if n.isDir then resolveSegs root (p ++ [seg]) rest
        else if rest = [] then .ok (p ++ [seg])
        else .error .notADirectory

/-- Modelled from the spec: `resolvePath(currentPath, argument)`
supports `.`, `..`, absolute arguments (leading `/`) and relative
segments; it never mutates the tree. -/
def resolvePath (root : FSNode) (cur : Path) (arg : List Char) :
    Except FsErr Path :=
  let start : Path := if arg.head? = some '/' then [] else cur
  resolveSegs root start (splitSlash arg)

/-- The configured home path (`/home/operator`, the app's start path). -/
def homePath : Path := [("home").toList, ("operator").toList]

/-- Result of a recognized filesystem command: rendered output and, for
a successful `cd`, the new absolute path. -/
structure FsResult where
  output : List Char
  newPath : Option Path
deriving DecidableEq, Repr

/-- Render an absolute path as a slash-delimited string. -/
def renderPath (p : Path) : List Char :=
  match p with
  | [] => [('/')]
  | _ => p.flatMap fun seg => ('/') :: seg

/-- Modelled from the spec: `ls` output enumerates children in
insertion order, directories visually distinguished by a trailing
slash, one name per line. -/
def renderListing (children : List FSNode) : List Char :=
  List.intercalate (("\n").toList)
    (children.map fun c => c.name ++ (if c.isDir then [('/')] else []))

/-- Modelled from the spec: the `ls [path]` verb. -/
def lsCmd (tree : FSNode) (cur : Path) (args : List (List Char)) : FsResult :=
  let target := match args with
    | [] => Except.ok cur
    | arg :: _ => resolvePath tree cur arg
  match target with
  | .error e => ⟨renderErr e (match args with | [] => [] | a :: _ => a), none⟩
  | .ok p =>
    match nodeAt tree p with
    | some (.dir _ children) => ⟨renderListing children, none⟩
    | some (.file n _) => ⟨n, none⟩
    | none => ⟨renderErr .notFound (renderPath p), none⟩

/-- Modelled from the spec: the `cd [path]` verb; an argument-less `cd`
returns to the configured home path; the target must be a directory. -/
def cdCmd (tree : FSNode) (cur : Path) (args : List (List Char)) : FsResult :=
  match args with
  | [] => ⟨[], some homePath⟩
  | arg :: _ =>
    match resolvePath tree cur arg with
    | .error e => ⟨renderErr e arg, none⟩
    | .ok p =>
      match nodeAt tree p with
      | none => ⟨renderErr .notFound arg, none⟩
      | some n => if n.isDir then ⟨[], some p⟩ else ⟨renderErr .notADirectory arg, none⟩

/-- Modelled from the spec: the `cat <path>` verb; `cat` on a directory
fails with `IsADirectory`, on a missing file with `NotFound`, both
surfaced as formatted error text rather than thrown. -/
def catCmd (tree : FSNode) (cur : Path) (args : List (List Char)) : FsResult :=
  match args with
  | [] => ⟨(("cat: missing operand").toList), none⟩
  | arg :: _ =>
    match resolvePath tree cur arg with
    | .error e => ⟨renderErr e arg, none⟩
    | .ok p =>
      match nodeAt tree p with
      | some (.file _ content) => ⟨content, none⟩
      | some (.dir _ _) => ⟨renderErr .isADirectory arg, none⟩
      | none => ⟨renderErr .notFound arg, none⟩

/-- Modelled from the spec: `executeFileSystemCommand(commandLine,
currentPath)` returns `none` exactly when the command's verb is not one
of the recognized filesystem verbs (`ls`, `cd`, `cat`, `pwd`,
`whoami`), signaling the caller to route elsewhere. -/
def executeFs (tree : FSNode) (command : List Char) (cur : Path) :
    Option FsResult :=
  match tokenize command with
  | [] => none
  | verb :: args =>
    if verb = ("pwd").toList then some ⟨renderPath cur, none⟩
    else if verb = ("whoami").toList then some ⟨("operator").toList, none⟩
    else if verb = ("ls").toList then some (lsCmd tree cur args)
    else if verb = ("cd").toList then some (cdCmd tree cur args)
    else if verb = ("cat").toList then some (catCmd tree cur args)
    else none

/-- Modelled from the spec: `getFileSystemCompletions(partialName,
currentPath)` returns all child names of the directory at `currentPath`
whose name starts with `partialName`, in insertion order. -/
def getFileSystemCompletions (tree : FSNode) (pname : List Char)
    (cur : Path) : List (List Char) :=
  match nodeAt tree cur with
  | some (.dir _ children) =>
    (children.map FSNode.name).filter fun n => pname.isPrefixOf n
  | _ => []

/- ===================================================================
   Command router and message handler (handleSendMessage)
   =================================================================== -/

/-- Message senders. -/
inductive Sender where
  | user
  | system
  | ai
deriving DecidableEq, Repr

/-- A chat message (id and timestamp are presentation data and omitted). -/
structure Msg where
  sender : Sender
  text : List Char
  isStreaming : Bool
deriving DecidableEq, Repr

def mkUserMsg (t : List Char) : Msg := ⟨.user, t, false⟩

def mkSysMsg (t : List Char) : Msg := ⟨.system, t, false⟩

/-- The empty streaming placeholder appended before the AI reply. -/
def aiPlaceholder : Msg := ⟨.ai, [], true⟩

def clearStr : List Char := ("clear").toList

def rbxStr : List Char := ("rbx hunt").toList

def sudoStr : List Char := ("sudo rm -rf").toList

def sudoSlashStr : List Char := ("sudo rm -rf /").toList

/-- The scavenger-hunt system message of the `rbx hunt` branch. -/
def rbxText : List Char :=
  (">>> SCAVENGER HUNT INITIATED <<<\n\nOBJECTIVE: Locate the encrypted reward file hidden within the filesystem.\n\nINSTRUCTIONS:\n1. Use \"ls\" to list files in the current directory.\n2. Use \"cd [folder_name]\" to navigate folders.\n3. Use \"cd ..\" to go back up one level.\n4. Use \"cat [filename]\" to read files.\n\nHINT: The prize is buried deep. Check system configurations or logs. Beware of fake winning folders.").toList

/-- The message left after the `sudo rm -rf` sequence reboots. -/
def rebootText : List Char :=
  ("SYSTEM REBOOT...\nINITIALIZING SYSTEM...\nCONNECTION ESTABLISHED.").toList

/-- The recognized verbs of the Virtual Filesystem surface. -/
def fsVerbs : List (List Char) :=
  [[('l'), ('s')], [('c'), ('d')], [('c'), ('a'), ('t')],
   [('p'), ('w'), ('d')], [('w'), ('h'), ('o'), ('a'), ('m'), ('i')]]

/-- The mutually exclusive destinations the router can pick. -/
inductive Route where
  | reset
  | easterEgg
  | vfs
  | remote (payload : List Char)
deriving DecidableEq, Repr

/-- The classification performed by `handleSendMessage`, in source
order: `clear`, then `rbx hunt`, then `executeFileSystemCommand`, then
`sudo rm -rf`, else the text is forwarded verbatim to the remote chat. -/
def classify (tree : FSNode) (cur : Path) (raw : List Char) : Route :=
  let command := trimStr raw
  let commandLower := lowerStr command
  if commandLower = clearStr then .reset
  else if commandLower = rbxStr then .easterEgg
  else if (executeFs tree command cur).isSome then .vfs
  else if commandLower = sudoStr ∨ sudoSlashStr.isPrefixOf commandLower then .easterEgg
  else .remote raw

/-- The claimed priority order, stated independently: (1) reset,
(2) any scripted Easter-egg sequence, (3) Virtual Filesystem command,
else (4) forwarded verbatim to the remote chat. -/
def classifySpec (tree : FSNode) (cur : Path) (raw : List Char) : Route :=
  let command := trimStr raw
  let commandLower := lowerStr command
  if commandLower = clearStr then .reset
  else if commandLower = rbxStr ∨ commandLower = sudoStr ∨
      sudoSlashStr.isPrefixOf commandLower then .easterEgg
  else if (executeFs tree command cur).isSome then .vfs
  else .remote raw

/-- The component state touched by `handleSendMessage` and
`handleKeyDown` (refs and React state together; presentation state such
as scrolling and audio is omitted). -/
structure AppState where
  inputValue : List Char
  isProcessing : Bool
  history : List (List Char)
  historyIndex : Int
  messages : List Msg
  currentPath : Path
  buffer : List Char
  networkStreaming : Bool
  typewriterActive : Bool
deriving DecidableEq, Repr

/-- The history update: push the raw text, then keep only the last 50
entries (`newHistory.slice(newHistory.length - 50)`). -/
def histPush (prev : List (List Char)) (userText : List Char) :
    List (List Char) :=
  let newHistory := prev ++ [userText]
  if newHistory.length > 50 then
    newHistory.drop (newHistory.length - 50)
  else newHistory

/-- The text accumulated in `streamingBuffer` by the try/catch of the
AI branch: the joined chunks, then the error fragment if the stream
failed. -/
def streamedText (chunks : List (List Char)) (err : Option (List Char)) :
    List Char :=
  chunks.flatten ++ (match err with | none => [] | some m => errFragment m)

/-- The filesystem branch of `handleSendMessage`: echo the user text,
append the rendered output when non-empty, apply a successful `cd` and
its delayed automatic `ls`. -/
def fsBranch (tree : FSNode) (st1 : AppState) (userText : List Char)
    (commandLower : List Char) (r : FsResult) : AppState :=
  let stU := { st1 with messages := st1.messages ++ [mkUserMsg userText] }
  let stO := if r.output = [] then stU
    else { stU with messages := stU.messages ++ [mkSysMsg r.output] }
  match r.newPath with
  | none => stO
  | some p =>
    let st2 := { stO with currentPath := p }
    if commandLower = ("cd").toList ∨ (("cd ").toList).isPrefixOf commandLower then
      match executeFs tree (("ls").toList) p with
      | some lr =>
        if lr.output = [] then st2
        else { st2 with messages := st2.messages ++ [mkSysMsg lr.output] }
      | none => st2
    else st2

/-- `handleSendMessage`, as a state function.  `chunks` and `err` stand
for the outcome of the external streaming call; time-delayed updates
are modelled by their final effect, in schedule order.  The guard
(empty trimmed input, or a message still processing) returns the state
untouched before any other effect. -/
def handleSendMessage (tree : FSNode) (st : AppState)
    (chunks : List (List Char)) (err : Option (List Char)) : AppState :=
  if trimStr st.inputValue = [] ∨ st.isProcessing = true then st
  else
    let userText := st.inputValue
    let command := trimStr userText
    let commandLower := lowerStr command
    let st1 : AppState :=
      { st with history := histPush st.history userText
                historyIndex := -1
                inputValue := [] }
    if commandLower = clearStr then { st1 with messages := [] }
    else if commandLower = rbxStr then
      { st1 with messages := st1.messages ++ [mkUserMsg userText, mkSysMsg rbxText] }
    else
      match executeFs tree command st.currentPath with
      | some r => fsBranch tree st1 userText commandLower r
      | none =>
        if commandLower = sudoStr ∨ sudoSlashStr.isPrefixOf commandLower then
          { st1 with messages := [mkSysMsg rebootText]
                     currentPath := homePath
                     isProcessing := false
                     typewriterActive := false }
        else
          { st1 with isProcessing := true
                     typewriterActive := true
                     networkStreaming := false
                     buffer := streamedText chunks err
                     messages := st1.messages ++ [mkUserMsg userText, aiPlaceholder] }

/-- The Tab branch of `handleKeyDown`: split the input on single
spaces, take the last field; when it is non-empty and the completion
lookup returns exactly one name, replace the last field by it and
re-join with spaces; otherwise leave everything unchanged. -/
def handleTab (tree : FSNode) (st : AppState) : AppState :=
  let parts := splitAllOnSpace st.inputValue
  match parts.getLast? with
  | none => st
  | some p =>
    if p = [] then st
    else
      match getFileSystemCompletions tree p st.currentPath with
      | [m] =>
        { st with inputValue := List.intercalate [(' ')] (parts.dropLast ++ [m]) }
      | _ => st

/- ===================================================================
   Concrete fixtures used by witnesses and counterexamples
   =================================================================== -/

/-- A small fixture tree: a root directory with a single child
directory `docs`. -/
def fixtureTree : FSNode :=
  .dir [] [.dir (("docs").toList) []]

/-- A state whose input is `cd ` (trailing space): the last
space-separated field is empty. -/
def stTab : AppState :=
  ⟨("cd ").toList, false, [], -1, [], [], [], false, false⟩

/-- A state whose input is `cd do`: the last field is a non-empty
unambiguous prefix of `docs`. -/
def stTab2 : AppState :=
  ⟨("cd do").toList, false, [], -1, [], [], [], false, false⟩

/-- A state submitted while a previous message is still processing. -/
def stBusy : AppState :=
  ⟨("ls").toList, true, [], -1, [], [], [], false, false⟩

/-- `clear` submitted while streaming is in flight: processing, with a
non-empty stream buffer and an active network source. -/
def stStreaming : AppState :=
  ⟨clearStr, true, [], -1, [], homePath, ("abc").toList, true, true⟩

/-- `clear` submitted while idle, with one prior history entry. -/
def stIdle : AppState :=
  ⟨clearStr, false, [("ls").toList], -1, [mkSysMsg (("hi").toList)], homePath, [], false, false⟩

/-- An ordinary chat submission while idle. -/
def stSubmit : AppState :=
  ⟨("hello").toList, false, [], -1, [], homePath, [], false, false⟩

/- ===================================================================
   Stream Coordinator lemmas
   =================================================================== -/

theorem charsToTake_pos (n : Nat) : 1 ≤ charsToTake n := by
  unfold charsToTake
  split
  · omega
  · split <;> omega

theorem tick_of_ne (s : StreamState) (h : s.pending ≠ []) :
    tick s = (.revealedDelta (s.pending.take (charsToTake s.pending.length)),
      { pending := s.pending.drop (charsToTake s.pending.length)
        revealed := s.revealed ++ s.pending.take (charsToTake s.pending.length)
        sourceActive := s.sourceActive }) := by
  have hl : s.pending.length > 0 := List.length_pos.mpr h
  simp [tick, hl]

theorem tickState_of_empty (s : StreamState) (h : s.pending = []) :
    tickState s = s := by
  unfold tickState tick
  rw [h]
  simp only [List.length_nil, gt_iff_lt, Nat.lt_irrefl, if_false]
  split <;> rfl

theorem tickState_conserv (s : StreamState) :
    (tickState s).revealed ++ (tickState s).pending = s.revealed ++ s.pending := by
  by_cases h : s.pending = []
  · rw [tickState_of_empty s h]
  · unfold tickState
    rw [tick_of_ne s h]
    simp [List.append_assoc, List.take_append_drop]

theorem tickState_sourceActive (s : StreamState) :
    (tickState s).sourceActive = s.sourceActive := by
  by_cases h : s.pending = []
  · rw [tickState_of_empty s h]
  · unfold tickState
    rw [tick_of_ne s h]

theorem tickState_len (s : StreamState) (h : s.pending ≠ []) :
    (tickState s).pending.length =
      s.pending.length - charsToTake s.pending.length := by
  unfold tickState
  rw [tick_of_ne s h]
  simp

theorem tickIter_of_empty (k : Nat) (s : StreamState) (h : s.pending = []) :
    tickIter k s = s := by
  induction k with
  | zero => rfl
  | succ k ih =>
    show tickIter k (tickState s) = s
    rw [tickState_of_empty s h]
    exact ih

theorem tickIter_sourceActive (k : Nat) (s : StreamState) :
    (tickIter k s).sourceActive = s.sourceActive := by
  induction k generalizing s with
  | zero => rfl
  | succ k ih =>
    show (tickIter k (tickState s)).sourceActive = s.sourceActive
    rw [ih (tickState s), tickState_sourceActive]

theorem drainCount_succ (m : Nat) :
    drainCount (m + 1) = 1 + drainCount (m + 1 - charsToTake (m + 1)) := by
  rw [drainCount]

theorem drain_iff : ∀ n : Nat, ∀ s : StreamState, s.pending.length = n →
    ∀ k : Nat, ((tickIter k s).pending = [] ↔ drainCount n ≤ k) := by
  intro n
  induction n using Nat.strong_induction_on with
  | _ n ih =>
    intro s hs k
    match n, hs with
    | 0, hs =>
      have hp : s.pending = [] := List.length_eq_zero.mp hs
      simp [tickIter_of_empty k s hp, drainCount, hp]
    | (m + 1), hs =>
      match k with
      | 0 =>
        constructor
        · intro h
          have hp : s.pending = [] := h
          rw [hp] at hs
          simp at hs
        · intro h
          exfalso
          rw [drainCount_succ] at h
          omega
      | (k + 1) =>
        have hne : s.pending ≠ [] := by
          intro h; rw [h] at hs; simp at hs
        have hlen : (tickState s).pending.length = (m + 1) - charsToTake (m + 1) := by
          rw [tickState_len s hne, hs]
        have hlt : (m + 1) - charsToTake (m + 1) < m + 1 := by
          have := charsToTake_pos (m + 1); omega
        have hiter : tickIter (k + 1) s = tickIter k (tickState s) := rfl
        rw [hiter, ih _ hlt (tickState s) hlen k, drainCount_succ]
        omega

theorem tick_terminal (s : StreamState) (hp : s.pending = [])
    (ha : s.sourceActive = false) : tick s = (.terminal, s) := by
  simp [tick, hp, ha]

theorem foldl_conserv : ∀ (evs : List Ev) (s : StreamState),
    (evs.foldl evStep s).revealed ++ (evs.foldl evStep s).pending =
      s.revealed ++ s.pending ++ (chunksOf evs).flatten := by
  intro evs
  induction evs with
  | nil => intro s; simp [chunksOf]
  | cons e evs ih =>
    intro s
    cases e with
    | append c =>
      show (evs.foldl evStep (appendChunk s c)).revealed ++
          (evs.foldl evStep (appendChunk s c)).pending = _
      rw [ih (appendChunk s c)]
      simp [chunksOf, appendChunk, List.filterMap_cons, List.append_assoc]
    | tick =>
      show (evs.foldl evStep (tickState s)).revealed ++
          (evs.foldl evStep (tickState s)).pending = _
      rw [ih (tickState s), tickState_conserv]
      simp [chunksOf, List.filterMap_cons]

/- ===================================================================
   Claim theorems: Stream Coordinator
   =================================================================== -/

/-- C1: every tick with a non-empty pending buffer moves exactly N
characters from the front of pending to revealed, where N = 3 if the
backlog exceeds 150 characters, 2 if it exceeds 50, and 1 otherwise;
over any trace of appends and ticks, revealed ++ pending equals the
concatenation of all appended input (no loss or duplication); and the
number of ticks to fully drain an input appended to a fresh coordinator
is deterministic, equal to `drainCount` of its length. -/
theorem stream_tick_policy_conservation_drain :
    (∀ s : StreamState, s.pending ≠ [] →
      tick s = (TickResult.revealedDelta (s.pending.take
          (if s.pending.length > 150 then 3 else if s.pending.length > 50 then 2 else 1)),
        { pending := s.pending.drop
            (if s.pending.length > 150 then 3 else if s.pending.length > 50 then 2 else 1)
          revealed := s.revealed ++ s.pending.take
            (if s.pending.length > 150 then 3 else if s.pending.length > 50 then 2 else 1)
          sourceActive := s.sourceActive }))
    ∧ (∀ evs : List Ev,
        (runTrace evs).revealed ++ (runTrace evs).pending = (chunksOf evs).flatten)
    ∧ (∀ input : List Char, ∀ k : Nat,
        (tickIter k (appendChunk initStream input)).pending = [] ↔
          drainCount input.length ≤ k) := by
  refine ⟨?_, ?_, ?_⟩
  · intro s h
    exact tick_of_ne s h
  · intro evs
    have h := foldl_conserv evs initStream
    simpa [runTrace, initStream] using h
  · intro input k
    exact drain_iff input.length (appendChunk initStream input)
      (by simp [appendChunk, initStream]) k

theorem stream_tick_policy_conservation_drain_witness :
    tick ⟨[('a'), ('b')], [], true⟩ = (TickResult.revealedDelta [('a')],
      { pending := [('b')], revealed := [('a')], sourceActive := true })
    ∧ ((tickIter 1 (appendChunk initStream [('a')])).pending = [] ↔ drainCount 1 ≤ 1) := by
  refine ⟨?_, stream_tick_policy_conservation_drain.2.2 [('a')] 1⟩
  have h := stream_tick_policy_conservation_drain.1 ⟨[('a'), ('b')], [], true⟩ (by decide)
  exact h.trans (by decide)

/-- C3: when the streaming call fails, the error is converted into a
bracketed error fragment appended to the pending buffer after the
partial content that had already streamed, the source is marked closed,
and ticking still reaches the terminal state; `runStream` is a total
function, embedding that no exception propagates to the caller. -/
theorem stream_error_appends_and_terminates (s : StreamState)
    (chunks : List (List Char)) (msg : List Char) :
    (runStream s chunks (some msg)).pending =
        s.pending ++ chunks.flatten ++ errFragment msg
    ∧ errFragment msg =
        ('\n') :: ((("[ERROR: CONNECTION FAILED - ").toList) ++ msg ++ [(']')])
    ∧ (runStream s chunks (some msg)).sourceActive = false
    ∧ (tickIter (drainCount (runStream s chunks (some msg)).pending.length)
        (runStream s chunks (some msg))).pending = []
    ∧ tick (tickIter (drainCount (runStream s chunks (some msg)).pending.length)
        (runStream s chunks (some msg))) =
      (TickResult.terminal,
        tickIter (drainCount (runStream s chunks (some msg)).pending.length)
          (runStream s chunks (some msg))) := by
  have hpend : (tickIter (drainCount (runStream s chunks (some msg)).pending.length)
      (runStream s chunks (some msg))).pending = [] :=
    (drain_iff (runStream s chunks (some msg)).pending.length
      (runStream s chunks (some msg)) rfl _).mpr (le_refl _)
  have hsrc : (tickIter (drainCount (runStream s chunks (some msg)).pending.length)
      (runStream s chunks (some msg))).sourceActive = false := by
    rw [tickIter_sourceActive]
    rfl
  refine ⟨rfl, rfl, rfl, hpend, ?_⟩
  rw [tick_terminal _ hpend hsrc]

/-- C4: calling `tick` after `closeSource` with empty pending returns
`terminal` and is idempotent: iterating any number of ticks leaves the
state unchanged, never errors, and never reveals further characters. -/
theorem tick_after_close_terminal_idempotent (s : StreamState)
    (h : s.pending = []) :
    tick (closeSource s) = (TickResult.terminal, closeSource s)
    ∧ (∀ k : Nat, tickIter k (closeSource s) = closeSource s)
    ∧ (∀ k : Nat, tick (tickIter k (closeSource s)) =
        (TickResult.terminal, closeSource s)) := by
  have hp : (closeSource s).pending = [] := h
  have ha : (closeSource s).sourceActive = false := rfl
  have hiter : ∀ k : Nat, tickIter k (closeSource s) = closeSource s :=
    fun k => tickIter_of_empty k (closeSource s) hp
  refine ⟨tick_terminal _ hp ha, hiter, fun k => ?_⟩
  rw [hiter k, tick_terminal _ hp ha]

theorem tick_after_close_terminal_idempotent_witness :
    tick (closeSource ⟨[], [('h'), ('i')], true⟩) =
      (TickResult.terminal, closeSource ⟨[], [('h'), ('i')], true⟩)
    ∧ tickIter 5 (closeSource ⟨[], [('h'), ('i')], true⟩) =
      closeSource ⟨[], [('h'), ('i')], true⟩ := by
  have h := tick_after_close_terminal_idempotent ⟨[], [('h'), ('i')], true⟩ (by decide)
  exact ⟨h.1, h.2.1 5⟩

/-- C5: after any trace of appended chunks and ticks, the revealed text
is a prefix of the concatenation of the appended chunks in arrival
order: the buffer is strictly FIFO, with no reordering or coalescing
beyond the tick batch size. -/
theorem revealed_prefix_of_appended (evs : List Ev) :
    (runTrace evs).revealed <+: (chunksOf evs).flatten := by
  refine ⟨(runTrace evs).pending, ?_⟩
  have h := foldl_conserv evs initStream
  simpa [runTrace, initStream] using h

/- ===================================================================
   Command router lemmas (C2)
   =================================================================== -/

theorem splitNE_acc (sep : Char) : ∀ (cs acc w : List Char)
    (ws : List (List Char)), acc ≠ [] → splitNE sep cs acc = w :: ws →
    ∃ t, w = acc.reverse ++ t := by
  intro cs
  induction cs with
  | nil =>
    intro acc w ws hacc h
    unfold splitNE at h
    rw [if_neg hacc] at h
    injection h with h1 _
    exact ⟨[], by rw [← h1, List.append_nil]⟩
  | cons c cs ih =>
    intro acc w ws hacc h
    unfold splitNE at h
    by_cases hc : c = sep
    · rw [if_pos hc, if_neg hacc] at h
      injection h with h1 _
      exact ⟨[], by rw [← h1, List.append_nil]⟩
    · rw [if_neg hc] at h
      obtain ⟨t, ht⟩ := ih (c :: acc) w ws (by simp) h
      exact ⟨c :: t, by rw [ht, List.reverse_cons, List.append_assoc]; rfl⟩

theorem splitNE_first (sep : Char) : ∀ (cs w : List Char)
    (ws : List (List Char)), splitNE sep cs [] = w :: ws →
    ∃ (k : Nat) (c : Char) (rest t : List Char),
      cs = List.replicate k sep ++ c :: rest ∧ c ≠ sep ∧ w = c :: t := by
  intro cs
  induction cs with
  | nil =>
    intro w ws h
    simp [splitNE] at h
  | cons c cs ih =>
    intro w ws h
    unfold splitNE at h
    by_cases hc : c = sep
    · rw [if_pos hc, if_pos rfl] at h
      obtain ⟨k, c', rest, t, hcs, hc', hw⟩ := ih w ws h
      refine ⟨k + 1, c', rest, t, ?_, hc', hw⟩
      rw [hc, hcs, List.replicate_succ]
      rfl
    · rw [if_neg hc] at h
      obtain ⟨t, ht⟩ := splitNE_acc sep cs [c] w ws (by simp) h
      exact ⟨0, c, cs, t, by simp, hc, by simpa using ht⟩

theorem executeFs_some_verb (tree : FSNode) (cur : Path) (command : List Char)
    (h : (executeFs tree command cur).isSome = true) :
    ∃ w ws, tokenize command = w :: ws ∧ w ∈ fsVerbs := by
  cases htok : tokenize command with
  | nil =>
    simp only [executeFs, htok, Option.isSome_none] at h
    exact absurd h (by decide)
  | cons v args =>
    simp only [executeFs, htok] at h
    refine ⟨v, args, rfl, ?_⟩
    simp only [fsVerbs, List.mem_cons, List.not_mem_nil, or_false]
    split_ifs at h with h1 h2 h3 h4 h5
    · exact Or.inr (Or.inr (Or.inr (Or.inl h1)))
    · exact Or.inr (Or.inr (Or.inr (Or.inr h2)))
    · exact Or.inl h3
    · exact Or.inr (Or.inl h4)
    · exact Or.inr (Or.inr (Or.inl h5))
    · simp at h

theorem sudo_head (l : List Char)
    (h : l = sudoStr ∨ sudoSlashStr <+: l) :
    l.head? = some ('s') := by
  rcases h with h | h
  · rw [h]; rfl
  · obtain ⟨t, ht⟩ := h
    rw [← ht]
    rfl

theorem sudo_not_fs (tree : FSNode) (cur : Path) (command : List Char)
    (hsudo : lowerStr command = sudoStr ∨
      sudoSlashStr <+: lowerStr command) :
    (executeFs tree command cur).isSome = false := by
  by_contra hcon
  rw [Bool.not_eq_false] at hcon
  obtain ⟨w, ws, htok, hmem⟩ := executeFs_some_verb tree cur command hcon
  obtain ⟨k, c, rest, t, hcs, hcsep, hwt⟩ := splitNE_first ' ' command w ws htok
  have hhead : (lowerStr command).head? = some ('s') := sudo_head _ hsudo
  rw [hcs] at hhead
  unfold lowerStr at hhead
  cases k with
  | succ k =>
    rw [List.replicate_succ] at hhead
    simp only [List.cons_append, List.map_cons, List.head?_cons,
      Option.some.injEq] at hhead
    revert hhead
    decide
  | zero =>
    simp only [List.replicate, List.nil_append, List.map_cons,
      List.head?_cons, Option.some.injEq] at hhead
    simp only [fsVerbs, List.mem_cons, List.not_mem_nil, or_false] at hmem
    rcases hmem with h | h | h | h | h <;>
      · rw [h] at hwt
        injection hwt with h1 _
        rw [← h1] at hhead
        revert hhead
        decide

/-- C2: the classification performed by `handleSendMessage` agrees, on
every raw input, with the claimed priority order (reset, then scripted
Easter eggs, then Virtual Filesystem commands, else forwarded verbatim
to the remote chat); as a function into `Route`, the classification is
mutually exclusive and short-circuiting by construction. -/
theorem classify_eq_spec (tree : FSNode) (cur : Path) (raw : List Char) :
    classify tree cur raw = classifySpec tree cur raw := by
  unfold classify classifySpec
  by_cases h1 : lowerStr (trimStr raw) = clearStr
  · simp [h1]
  · by_cases h2 : lowerStr (trimStr raw) = rbxStr
    · simp [h1, h2]
    · by_cases hsudo : lowerStr (trimStr raw) = sudoStr ∨
        sudoSlashStr <+: lowerStr (trimStr raw)
      · have hfs := sudo_not_fs tree cur (trimStr raw) hsudo
        simp [h1, h2, hsudo, hfs]
      · by_cases h3 : (executeFs tree (trimStr raw) cur).isSome
        · simp [h1, h2, h3, hsudo]
        · simp [h1, h2, h3, hsudo]

/- ===================================================================
   handleSendMessage lemmas
   =================================================================== -/

theorem guard_noop (tree : FSNode) (st : AppState)
    (chunks : List (List Char)) (err : Option (List Char))
    (h : trimStr st.inputValue = [] ∨ st.isProcessing = true) :
    handleSendMessage tree st chunks err = st := by
  unfold handleSendMessage
  rw [if_pos h]

theorem fsBranch_frame (tree : FSNode) (st1 : AppState) (u cl : List Char)
    (r : FsResult) :
    (fsBranch tree st1 u cl r).history = st1.history ∧
    (fsBranch tree st1 u cl r).historyIndex = st1.historyIndex := by
  unfold fsBranch
  dsimp only
  repeat' split
  all_goals exact ⟨rfl, rfl⟩

theorem handle_accepted (tree : FSNode) (st : AppState)
    (chunks : List (List Char)) (err : Option (List Char))
    (hne : trimStr st.inputValue ≠ []) (hp : st.isProcessing = false) :
    (handleSendMessage tree st chunks err).history =
      histPush st.history st.inputValue
    ∧ (handleSendMessage tree st chunks err).historyIndex = -1 := by
  unfold handleSendMessage
  rw [if_neg (by simp [hne, hp])]
  dsimp only
  repeat' split
  all_goals first
    | exact ⟨rfl, rfl⟩
    | exact ⟨(fsBranch_frame tree _ _ _ _).1, (fsBranch_frame tree _ _ _ _).2⟩

theorem histPush_length (prev : List (List Char)) (u : List Char) :
    (histPush prev u).length = min (prev.length + 1) 50 := by
  simp only [histPush]
  split
  · simp only [List.length_drop, List.length_append, List.length_singleton]
    omega
  · simp only [List.length_append, List.length_singleton]
    rename_i h
    simp only [List.length_append, List.length_singleton] at h
    omega

theorem histPush_suffix (prev : List (List Char)) (u : List Char) :
    histPush prev u <:+ prev ++ [u] := by
  simp only [histPush]
  split
  · exact List.drop_suffix _ _
  · exact List.suffix_refl _

/- ===================================================================
   Claim theorems: router, history, clear, tab, cd, guard
   =================================================================== -/

/-- C6: the command history length never exceeds 50 across a
submission; an accepted submission stores the raw input through
`histPush`, which keeps at most the 50 newest entries (a suffix of the
pushed sequence, so the oldest entries are the ones evicted) and resets
the recall cursor to -1. -/
theorem history_capped_cursor_reset (tree : FSNode) (st : AppState)
    (chunks : List (List Char)) (err : Option (List Char))
    (hlen : st.history.length ≤ 50) :
    (handleSendMessage tree st chunks err).history.length ≤ 50
    ∧ (trimStr st.inputValue ≠ [] → st.isProcessing = false →
        (handleSendMessage tree st chunks err).history =
          histPush st.history st.inputValue
        ∧ (handleSendMessage tree st chunks err).historyIndex = -1
        ∧ (histPush st.history st.inputValue).length = min (st.history.length + 1) 50
        ∧ histPush st.history st.inputValue <:+ st.history ++ [st.inputValue]) := by
  constructor
  · by_cases hg : trimStr st.inputValue = [] ∨ st.isProcessing = true
    · rw [guard_noop tree st chunks err hg]
      exact hlen
    · push_neg at hg
      have hacc := handle_accepted tree st chunks err hg.1
        (by simpa using hg.2)
      rw [hacc.1, histPush_length]
      omega
  · intro hne hp
    have hacc := handle_accepted tree st chunks err hne hp
    exact ⟨hacc.1, hacc.2, histPush_length _ _, histPush_suffix _ _⟩

theorem history_capped_cursor_reset_witness :
    (handleSendMessage fixtureTree stSubmit [] none).history =
      histPush stSubmit.history stSubmit.inputValue
    ∧ (handleSendMessage fixtureTree stSubmit [] none).historyIndex = -1 := by
  have h := (history_capped_cursor_reset fixtureTree stSubmit [] none
    (by decide)).2 (by decide) rfl
  exact ⟨h.1, h.2.1⟩

/-- C7 as claimed is false: this exhibits `clear` submitted during
streaming being ignored entirely (the in-flight coordinator is not
abandoned, nothing is reset), and `clear` submitted while idle leaving
the command history un-discarded (the `clear` entry is even
appended). -/
theorem clear_claim_counterexample :
    handleSendMessage fixtureTree stStreaming [] none = stStreaming
    ∧ stStreaming.isProcessing = true
    ∧ stStreaming.buffer ≠ []
    ∧ stStreaming.networkStreaming = true
    ∧ lowerStr (trimStr stStreaming.inputValue) = clearStr
    ∧ (handleSendMessage fixtureTree stIdle [] none).history =
        [("ls").toList, clearStr] := by
  decide

/-- C7 amended: submitting `clear` while idle clears the message log
and the input, appends `clear` to the (retained) command history and
resets the recall cursor; submitting `clear` while a message is
processing is ignored by the guard, so it never touches an in-flight
coordinator. -/
theorem clear_resets_messages_not_history (tree : FSNode) (st : AppState)
    (chunks : List (List Char)) (err : Option (List Char))
    (hclear : lowerStr (trimStr st.inputValue) = clearStr) :
    (st.isProcessing = true → handleSendMessage tree st chunks err = st)
    ∧ (st.isProcessing = false →
        handleSendMessage tree st chunks err =
          { st with inputValue := []
                    messages := []
                    history := histPush st.history st.inputValue
                    historyIndex := -1 }) := by
  constructor
  · intro hp
    exact guard_noop tree st chunks err (Or.inr hp)
  · intro hp
    have hne : trimStr st.inputValue ≠ [] := by
      intro h
      rw [h] at hclear
      exact absurd hclear (by decide)
    unfold handleSendMessage
    rw [if_neg (by simp [hne, hp])]
    dsimp only
    rw [if_pos hclear]

theorem clear_resets_messages_not_history_witness :
    handleSendMessage fixtureTree stIdle [] none =
      { stIdle with inputValue := []
                    messages := []
                    history := histPush stIdle.history stIdle.inputValue
                    historyIndex := -1 } := by
  exact (clear_resets_messages_not_history fixtureTree stIdle [] none
    (by decide)).2 rfl

/-- C8 as claimed is false: with the current path holding exactly one
child `docs` and input `cd ` (so the last space-separated field is
empty), the completion lookup on that field returns exactly one match,
yet Tab leaves the input unchanged instead of replacing the field. -/
theorem tab_claim_counterexample :
    (splitAllOnSpace stTab.inputValue).getLast? = some []
    ∧ getFileSystemCompletions fixtureTree [] stTab.currentPath =
        [("docs").toList]
    ∧ handleTab fixtureTree stTab = stTab
    ∧ stTab.inputValue ≠ List.intercalate [(' ')]
        ((splitAllOnSpace stTab.inputValue).dropLast ++ [("docs").toList]) := by
  decide

/-- C8 amended: on Tab, when the last space-separated field of the
input is non-empty, it is replaced by the completion exactly when the
prefix lookup returns exactly one match; when the field is empty, or
the lookup returns zero or several matches, the input is left
unchanged. -/
theorem tab_complete_amended (tree : FSNode) (st : AppState) :
    ((splitAllOnSpace st.inputValue).getLast? = some [] →
      handleTab tree st = st)
    ∧ (∀ p m, (splitAllOnSpace st.inputValue).getLast? = some p → p ≠ [] →
        getFileSystemCompletions tree p st.currentPath = [m] →
        handleTab tree st = { st with inputValue := (List.intercalate [(' ')]
          ((splitAllOnSpace st.inputValue).dropLast ++ [m])) })
    ∧ (∀ p, (splitAllOnSpace st.inputValue).getLast? = some p → p ≠ [] →
        (getFileSystemCompletions tree p st.currentPath).length ≠ 1 →
        handleTab tree st = st) := by
  refine ⟨?_, ?_, ?_⟩
  · intro hlast
    unfold handleTab
    dsimp only
    rw [hlast]
    dsimp only
    rw [if_pos rfl]
  · intro p m hlast hp hcomp
    unfold handleTab
    dsimp only
    rw [hlast]
    dsimp only
    rw [if_neg hp, hcomp]
  · intro p hlast hp hlen
    unfold handleTab
    dsimp only
    rw [hlast]
    dsimp only
    rw [if_neg hp]
    cases hcomp : getFileSystemCompletions tree p st.currentPath with
    | nil => rfl
    | cons m rest =>
      cases rest with
      | nil =>
        rw [hcomp] at hlen
        simp at hlen
      | cons m2 rest2 => rfl

theorem tab_complete_amended_witness :
    handleTab fixtureTree stTab2 = { stTab2 with inputValue := ("cd docs").toList } := by
  have h := (tab_complete_amended fixtureTree stTab2).2.1 (("do").toList)
    (("docs").toList) (by decide) (by decide) (by decide)
  exact h.trans (by decide)

/-- C9: resolving `..` from the root yields the root again, and the
command `cd ..` at the root succeeds with the root as the (unchanged)
new path: an idempotent no-op, not an error. -/
theorem cd_dotdot_at_root (tree : FSNode) (hdir : tree.isDir = true) :
    resolvePath tree [] (("..").toList) = .ok []
    ∧ executeFs tree (("cd ..").toList) [] = some ⟨[], some []⟩ := by
  constructor
  · rfl
  · have key : executeFs tree (("cd ..").toList) [] =
        some (if tree.isDir = true then (⟨[], some []⟩ : FsResult)
          else ⟨renderErr .notADirectory (("..").toList), none⟩) := rfl
    rw [key, if_pos hdir]

theorem cd_dotdot_at_root_witness :
    resolvePath fixtureTree [] (("..").toList) = .ok []
    ∧ executeFs fixtureTree (("cd ..").toList) [] = some ⟨[], some []⟩ :=
  cd_dotdot_at_root fixtureTree rfl

/-- C10: when the trimmed input is empty or a previous message is still
processing, submitting is a complete no-op: the whole state, the input
field included, is returned unchanged — no history entry, no message,
no classification. -/
theorem submit_guard_noop (tree : FSNode) (st : AppState)
    (chunks : List (List Char)) (err : Option (List Char))
    (h : trimStr st.inputValue = [] ∨ st.isProcessing = true) :
    handleSendMessage tree st chunks err = st :=
  guard_noop tree st chunks err h

theorem submit_guard_noop_witness :
    handleSendMessage fixtureTree stBusy [] none = stBusy :=
  submit_guard_noop fixtureTree stBusy [] none (Or.inr rfl)

end GT
